import Mathlib

/- Verification of the Xray test-steps flattening utility: a shallow
   embedding of the cell parser, the column resolver, the flattener, the
   collapse transform and the CSV serializer, together with proofs about
   the specified behaviour of each component. -/

namespace XSP

/- String and label constants.  Keeping every literal in a constant of its
   own makes the later definitions and theorem statements uniform. -/

def emptyStr : String := ""

def oneSpace : String := " "

def commaSpace : String := ", "

def colonSpace : String := ": "

def lblSteps : String := "Manual Test Steps"

def lblIssueKey : String := "Issue key"

def lblKey : String := "Key"

def lblSummary : String := "Summary"

def keyFields : String := "fields"

def keyIndex : String := "index"

def keyAction : String := "Action"

def keyData : String := "Data"

def keyExpected : String := "Expected Result"

def hdrCase : String := "Case #"

def hdrStep : String := "Step #"

def attrErrMsg : String := "AttributeError"

def keyErrMsg : String := "KeyError"

def errMsgHead : String := "Eksik sütun(lar): "

def noneLit : String := "None"

def trueLit : String := "True"

def falseLit : String := "False"

/-- Whitespace as Python's str.strip and the regex class backslash-s see
it: the ASCII whitespace characters plus the no-break space (the subset of
Unicode whitespace relevant to this code base). -/
def is_py_space (c : Char) : Bool :=
  c = ' ' || c = '\t' || c = '\n' || c = '\r' || c = '\x0b' || c = '\x0c' || c = '\u00a0'

/-- Model of Python str.strip with no arguments. -/
def py_strip (s : String) : String :=
  String.mk (((s.data.dropWhile is_py_space).reverse.dropWhile is_py_space).reverse)

/-- Maximal runs of non-whitespace characters, in order (the accumulator
holds the current run reversed). -/
def words_aux : List Char → List Char → List String
  | [], cur => if cur.isEmpty then [] else [String.mk cur.reverse]
  | c :: rest, cur =>
    if is_py_space c then
      if cur.isEmpty then words_aux rest [] else String.mk cur.reverse :: words_aux rest []
    else words_aux rest (c :: cur)

/-- Model of the text-cleaning regex substitution followed by strip:
collapse every whitespace run to a single space and trim the ends. -/
def py_collapse (s : String) : String :=
  String.intercalate oneSpace (words_aux s.data [])

/- The decoded-JSON value model.  Numbers cover the integer literals the
   step format uses; a fractional or exponent suffix makes the parse fail
   instead of producing a float (no claim involves floats). -/

inductive Json where
  | null : Json
  | bool : Bool → Json
  | num : Int → Json
  | str : String → Json
  | arr : List Json → Json
  | obj : List (String × Json) → Json

/-- Dictionary lookup on a decoded object.  A repeated key keeps the last
binding, as a Python dict built by the decoder does. -/
def obj_get (kvs : List (String × Json)) (k : String) : Option Json :=
  match kvs with
  | [] => none
  | (k', v) :: rest =>
    match obj_get rest k with
    | some r => some r
    | none => if k' = k then some v else none

def json_ws (c : Char) : Bool :=
  c = ' ' || c = '\t' || c = '\n' || c = '\r'

def skip_ws (cs : List Char) : List Char :=
  cs.dropWhile json_ws

def expects : List Char → List Char → Option (List Char)
  | [], cs => some cs
  | p :: ps, c :: cs => if c = p then expects ps cs else none
  | _ :: _, [] => none

def hex_val (c : Char) : Option Nat :=
  if c.isDigit then some (c.toNat - 48)
  else if 97 ≤ c.toNat && c.toNat ≤ 102 then some (c.toNat - 87)
  else if 65 ≤ c.toNat && c.toNat ≤ 70 then some (c.toNat - 55)
  else none

def esc_char (c : Char) : Option Char :=
  if c = '"' then some '"'
  else if c = '\\' then some '\\'
  else if c = '/' then some '/'
  else if c = 'b' then some '\x08'
  else if c = 'f' then some '\x0c'
  else if c = 'n' then some '\n'
  else if c = 'r' then some '\r'
  else if c = 't' then some '\t'
  else none

/-- JSON string body (the opening quote is already consumed); strict about
raw control characters, as the strict decoder is. -/
def pj_string_aux : List Char → List Char → Option (String × List Char)
  | acc, c :: rest =>
    if c = '"' then some (String.mk acc.reverse, rest)
    else if c = '\\' then
      match rest with
      | [] => none
      | e :: rest2 =>
        if e = 'u' then
          match rest2 with
          | h1 :: h2 :: h3 :: h4 :: rest3 =>
            match hex_val h1, hex_val h2, hex_val h3, hex_val h4 with
            | some a, some b, some c2, some d =>
              let n := ((a * 16 + b) * 16 + c2) * 16 + d
              if n < 55296 || (57343 < n && n < 1114112) then
                pj_string_aux (Char.ofNat n :: acc) rest3
              else none
            | _, _, _, _ => none
          | _ => none
        else
          match esc_char e with
          | some ec => pj_string_aux (ec :: acc) rest2
          | none => none
    else if c.toNat < 32 then none
    else pj_string_aux (c :: acc) rest
  | _, [] => none

def take_digits : List Char → List Nat × List Char
  | [] => ([], [])
  | c :: rest =>
    if c.isDigit then
      let (ds, r) := take_digits rest
      ((c.toNat - 48) :: ds, r)
    else ([], c :: rest)

def digits_to_nat (ds : List Nat) : Nat :=
  ds.foldl (fun acc d => acc * 10 + d) 0

/-- Integer JSON number literal (see the note on the Json type). -/
def pj_number (cs : List Char) : Option (Json × List Char) :=
  let sr :=
    match cs with
    | c :: rest => if c = '-' then (true, rest) else (false, cs)
    | [] => (false, cs)
  match take_digits sr.2 with
  | ([], _) => none
  | (ds, rest) =>
    let v : Int := if sr.1 then -(digits_to_nat ds : Int) else (digits_to_nat ds : Int)
    match rest with
    | c :: _ =>
      if c = '.' || c = 'e' || c = 'E' then none
      else some (Json.num v, rest)
    | [] => some (Json.num v, rest)

inductive PMode where
  | pvalue
  | parrFirst
  | parrNext
  | pobjFirst
  | pobjNext

inductive PRes where
  | rv : Json → PRes
  | rl : List Json → PRes
  | ro : List (String × Json) → PRes

/-- Recursive-descent JSON reader.  The fuel argument only bounds the
recursion; the caller passes more than the input can consume. -/
def pj : Nat → PMode → List Char → Option (PRes × List Char)
  | 0, _, _ => none
  | fuel + 1, PMode.pvalue, cs =>
    match skip_ws cs with
    | [] => none
    | c :: rest =>
      if c = 'n' then
        match expects ['u', 'l', 'l'] rest with
        | some r => some (PRes.rv Json.null, r)
        | none => none
      else if c = 't' then
        match expects ['r', 'u', 'e'] rest with
        | some r => some (PRes.rv (Json.bool true), r)
        | none => none
      else if c = 'f' then
        match expects ['a', 'l', 's', 'e'] rest with
        | some r => some (PRes.rv (Json.bool false), r)
        | none => none
      else if c = '"' then
        match pj_string_aux [] rest with
        | some (s, r) => some (PRes.rv (Json.str s), r)
        | none => none
      else if c = '[' then
        match pj fuel PMode.parrFirst rest with
        | some (PRes.rl l, r) => some (PRes.rv (Json.arr l), r)
        | _ => none
      else if c = '\x7b' then
        match pj fuel PMode.pobjFirst rest with
        | some (PRes.ro l, r) => some (PRes.rv (Json.obj l), r)
        | _ => none
      else if c = '-' || c.isDigit then
        match pj_number (c :: rest) with
        | some (j, r) => some (PRes.rv j, r)
        | none => none
      else none
  | fuel + 1, PMode.parrFirst, cs =>
    match skip_ws cs with
    | ']' :: rest => some (PRes.rl [], rest)
    | cs' => pj fuel PMode.parrNext cs'
  | fuel + 1, PMode.parrNext, cs =>
    match pj fuel PMode.pvalue cs with
    | some (PRes.rv v, cs1) =>
      (match skip_ws cs1 with
       | ']' :: rest => some (PRes.rl [v], rest)
       | ',' :: rest =>
         match pj fuel PMode.parrNext rest with
         | some (PRes.rl vs, r) => some (PRes.rl (v :: vs), r)
         | _ => none
       | _ => none)
    | _ => none
  | fuel + 1, PMode.pobjFirst, cs =>
    match skip_ws cs with
    | '\x7d' :: rest => some (PRes.ro [], rest)
    | cs' => pj fuel PMode.pobjNext cs'
  | fuel + 1, PMode.pobjNext, cs =>
    match skip_ws cs with
    | '"' :: rest =>
      (match pj_string_aux [] rest with
       | some (k, cs1) =>
         (match skip_ws cs1 with
          | ':' :: cs2 =>
            (match pj fuel PMode.pvalue cs2 with
             | some (PRes.rv v, cs3) =>
               (match skip_ws cs3 with
                | '\x7d' :: rest2 => some (PRes.ro [(k, v)], rest2)
                | ',' :: rest2 =>
                  (match pj fuel PMode.pobjNext rest2 with
                   | some (PRes.ro kvs, r) => some (PRes.ro ((k, v) :: kvs), r)
                   | _ => none)
                | _ => none)
             | _ => none)
          | _ => none)
       | none => none)
    | _ => none

/-- Model of the strict JSON decode of a whole string: one value, then
only whitespace to the end. -/
def json_loads (s : String) : Option Json :=
  match pj (2 * s.length + 4) PMode.pvalue s.data with
  | some (PRes.rv v, rest) => if (skip_ws rest).isEmpty then some v else none
  | _ => none

/- Stringification of decoded values, modelling Python str and repr for
   the value shapes the decoder can produce. -/

def repr_escape (q : Char) (c : Char) : List Char :=
  if c = '\\' then ['\\', '\\']
  else if c = q then ['\\', q]
  else if c = '\n' then ['\\', 'n']
  else if c = '\r' then ['\\', 'r']
  else if c = '\t' then ['\\', 't']
  else [c]

/-- Python string repr: single quotes unless the text holds a single quote
and no double quote; common escapes. -/
def py_str_repr (s : String) : String :=
  let q := if s.data.contains '\'' && !(s.data.contains '"') then '"' else '\''
  String.mk (q :: s.data.foldr (fun c acc => repr_escape q c ++ acc) [q])

def py_repr_fuel : Nat → Json → String
  | 0, _ => emptyStr
  | _ + 1, Json.null => noneLit
  | _ + 1, Json.bool true => trueLit
  | _ + 1, Json.bool false => falseLit
  | _ + 1, Json.num n => toString n
  | _ + 1, Json.str s => py_str_repr s
  | fuel + 1, Json.arr items =>
    String.mk ('[' :: (String.intercalate commaSpace (items.map (py_repr_fuel fuel))).data ++ [']'])
  | fuel + 1, Json.obj kvs =>
    String.mk ('\x7b' ::
      (String.intercalate commaSpace
        (kvs.map (fun kv => py_str_repr kv.1 ++ colonSpace ++ py_repr_fuel fuel kv.2))).data
      ++ ['\x7d'])

mutual

/-- Structural size of a decoded value, used to bound the repr depth. -/
def jsize : Json → Nat
  | Json.null => 1
  | Json.bool _ => 1
  | Json.num _ => 1
  | Json.str _ => 1
  | Json.arr items => 1 + jsize_list items
  | Json.obj kvs => 1 + jsize_obj kvs

def jsize_list : List Json → Nat
  | [] => 0
  | j :: rest => jsize j + jsize_list rest

def jsize_obj : List (String × Json) → Nat
  | [] => 0
  | kv :: rest => jsize kv.2 + jsize_obj rest

end

/-- Model of Python str() on a decoded value: a string is itself, a
container prints as its repr (the size of the value bounds the depth). -/
def py_str : Json → String
  | Json.str s => s
  | j => py_repr_fuel (jsize j) j

/-- The text-cleaning helper: stringify unless the value is the decoded
null, then collapse whitespace runs and trim. -/
def clean_text (x : Json) : String :=
  py_collapse
    (match x with
     | Json.null => emptyStr
     | j => py_str j)

/- The cell parser. -/

/-- Python dict .get with a default: raises (error) when the receiver is
not a dict, as attribute lookup on a non-dict does. -/
def py_dict_get (v : Json) (k : String) (dflt : Json) : Except String Json :=
  match v with
  | Json.obj kvs => Except.ok ((obj_get kvs k).getD dflt)
  | _ => Except.error attrErrMsg

/-- Python dict .get without a default (None when the key is absent);
raises (error) when the receiver is not a dict. -/
def py_dict_get_opt (v : Json) (k : String) : Except String (Option Json) :=
  match v with
  | Json.obj kvs => Except.ok (obj_get kvs k)
  | _ => Except.error attrErrMsg

structure StepRecord where
  stepNumber : Option Json
  action : String
  data : String
  expectedResult : String

/-- One array element turned into a step record.  The fields lookup is
guarded by the dict check, but the index lookup is performed on the raw
element, so a non-dict element raises (error). -/
def step_of_item (item : Json) : Except String StepRecord := do
  let fields : Json :=
    match item with
    | Json.obj kvs => (obj_get kvs keyFields).getD (Json.obj [])
    | _ => Json.obj []
  let actionV ← py_dict_get fields keyAction (Json.str emptyStr)
  let dataV ← py_dict_get fields keyData (Json.str emptyStr)
  let expectedV ← py_dict_get fields keyExpected (Json.str emptyStr)
  let idx ← py_dict_get_opt item keyIndex
  Except.ok ⟨idx, clean_text actionV, clean_text dataV, clean_text expectedV⟩

def nbsp_to_space (s : String) : String :=
  String.mk (s.data.map (fun c => if c = '\u00a0' then ' ' else c))

def relax_quotes (s : String) : String :=
  String.mk (s.data.map (fun c => if c = '\'' then '"' else c))

/-- Strip then replace the no-break space, as the parser normalizes the
raw cell text. -/
def normalize_cell (c : String) : String :=
  nbsp_to_space (py_strip c)

/-- Two-stage decode: strict JSON first, then the retry with every single
quote replaced by a double quote. -/
def decode_steps (s : String) : Option Json :=
  match json_loads s with
  | some v => some v
  | none => json_loads (relax_quotes s)

/-- List traversal over a fallible step, propagating the first error (the
loop body of the parser over array elements). -/
def mapE {α β : Type} (f : α → Except String β) : List α → Except String (List β)
  | [] => Except.ok []
  | x :: rest => do
    let y ← f x
    let ys ← mapE f rest
    Except.ok (y :: ys)

/-- The cell parser.  A missing or non-string cell is `none`.  The error
case is the exception Python raises while reading a non-dict array
element; every other anomaly degrades to an empty step list. -/
def parse_manual_steps_cell (cell : Option String) : Except String (List StepRecord) :=
  match cell with
  | none => Except.ok []
  | some c =>
    if py_strip c = emptyStr then Except.ok []
    else
      match decode_steps (normalize_cell c) with
      | none => Except.ok []
      | some arr =>
        match arr with
        | Json.arr items => mapE step_of_item items
        | _ => Except.ok []

/- The table model: an input row is a list of optional text cells aligned
   with the column names (a missing or NaN cell is `none`). -/

abbrev Cell := Option String

structure DataFrame where
  cols : List String
  rows : List (List Cell)
deriving DecidableEq

def assoc_cell (k : String) : List (String × Cell) → Cell
  | [] => none
  | (k', v) :: rest => if k' = k then v else assoc_cell k rest

/-- Reading one named cell of a row (none when the column is absent, as
the row accessor defaults). -/
def row_get (cols : List String) (r : List Cell) (col : String) : Cell :=
  assoc_cell col (cols.zip r)

/- The column resolver. -/

def starts_with_chars : List Char → List Char → Bool
  | [], _ => true
  | _ :: _, [] => false
  | p :: ps, c :: cs => if p = c then starts_with_chars ps cs else false

def has_sub : List Char → List Char → Bool
  | needle, [] => needle.isEmpty
  | needle, c :: rest => starts_with_chars needle (c :: rest) || has_sub needle rest

/-- The matching rule: the lower-cased needle occurs inside the
lower-cased column name (per-character lowering, as str.lower does on
these ASCII labels). -/
def name_matches (c needle : String) : Bool :=
  has_sub (needle.data.map Char.toLower) (c.data.map Char.toLower)

/-- First column whose name contains the needle, case-insensitively; the
empty string when none does. -/
def find_col (cols : List String) (needle : String) : String :=
  match cols with
  | [] => emptyStr
  | c :: rest => if name_matches c needle then c else find_col rest needle

/-- The key column: the issue-key label first, the bare key label as the
fallback (the boolean-or of the two lookups). -/
def col_key (cols : List String) : String :=
  if find_col cols lblIssueKey ≠ emptyStr then find_col cols lblIssueKey
  else find_col cols lblKey

/-- The labels the validation step reports, in the fixed order the code
appends them. -/
def missing_labels (cols : List String) : List String :=
  (if find_col cols lblSteps = emptyStr then [lblSteps] else [])
    ++ (if col_key cols = emptyStr then [lblIssueKey] else [])
    ++ (if find_col cols lblSummary = emptyStr then [lblSummary] else [])

/- The flattener. -/

structure PreRow where
  issueKey : Cell
  summary : Cell
  stepNum : Option Json
  action : String
  data : String
  expected : String

structure FlatRow where
  caseNumber : Option Nat
  row : PreRow

/-- The rows one input record contributes: one placeholder when the cell
parses to no steps, else one row per step. -/
def record_rows (cols : List String) (col_steps col_key0 col_sum : String) (r : List Cell) :
    Except String (List PreRow) := do
  let key := row_get cols r col_key0
  let summ := row_get cols r col_sum
  let steps ← parse_manual_steps_cell (row_get cols r col_steps)
  if steps.isEmpty then
    Except.ok [⟨key, summ, none, emptyStr, emptyStr, emptyStr⟩]
  else
    Except.ok (steps.map (fun s => ⟨key, summ, s.stepNumber, s.action, s.data, s.expectedResult⟩))

/-- Distinct values in first-appearance order (the unique pass). -/
def first_seen {α : Type} [BEq α] (seen : List α) : List α → List α
  | [] => []
  | k :: rest =>
    if seen.contains k then first_seen seen rest
    else k :: first_seen (k :: seen) rest

def enumerate_from (n : Nat) : List String → List (String × Nat)
  | [] => []
  | k :: rest => (k, n) :: enumerate_from (n + 1) rest

def assoc_nat (k : String) : List (String × Nat) → Option Nat
  | [] => none
  | (k', v) :: rest => if k' = k then some v else assoc_nat k rest

/-- Position of the first occurrence (the length when absent). -/
def idx_of (k : String) : List String → Nat
  | [] => 0
  | x :: rest => if x = k then 0 else idx_of k rest + 1

/-- The case-number map: present (non-NA) distinct keys in first-seen
order, numbered from one. -/
def case_map_of (keys : List Cell) : List (String × Nat) :=
  enumerate_from 1 ((first_seen [] keys).filterMap id)

/-- The numbering stage: map each emitted row's key through the case-number
map built from the emitted key sequence (a missing key maps to nothing). -/
def number_rows (rows : List PreRow) : List FlatRow :=
  let cmap := case_map_of (rows.map PreRow.issueKey)
  rows.map (fun p => ⟨(p.issueKey).bind (fun k => assoc_nat k cmap), p⟩)

/-- The flattener.  The error cases are the exception propagated from the
cell parser and the key lookup on the column-less empty frame built from
an empty row list. -/
def build_flat (df : DataFrame) (col_steps col_key0 col_sum : String) :
    Except String (List FlatRow) := do
  let pre ← mapE (record_rows df.cols col_steps col_key0 col_sum) df.rows
  match pre.flatten with
  | [] => Except.error keyErrMsg
  | r :: rs => Except.ok (number_rows (r :: rs))

/- The collapse transform. -/

/-- Index-aware map (the position argument is the running index). -/
def mapi {α β : Type} (f : Nat → α → β) : Nat → List α → List β
  | _, [] => []
  | n, x :: rest => f n x :: mapi f (n + 1) rest

/-- Blank the named columns of one row. -/
def blank_row (cols : List String) (cbs : List String) (r : List Cell) : List Cell :=
  mapi (fun j v => if cbs.contains (cols.getD j emptyStr) then some emptyStr else v) 0 r

def row_key (df : DataFrame) (g : String) (i : Nat) : Cell :=
  row_get df.cols (df.rows.getD i []) g

def has_earlier (df : DataFrame) (g : String) (i : Nat) : Bool :=
  (List.range i).any (fun i' => row_key df g i' == row_key df g i)

/-- The collapse transform.  The group-by with sorting disabled buckets
the row indices of each non-missing key value, and blanking every bucket
index after the first blanks exactly the rows that have an earlier row
with the same key, which is how the model states it. -/
def collapse_repeats (df : DataFrame) (group_col : String) (cols_to_blank : List String) :
    DataFrame :=
  if df.rows.isEmpty || !(df.cols.contains group_col) then df
  else
    ⟨df.cols,
      mapi (fun i r =>
        if (row_key df group_col i).isSome && has_earlier df group_col i then
          blank_row df.cols cols_to_blank r
        else r) 0 df.rows⟩

/- The serializer and its spec-side reader. -/

def cell_text : Cell → String
  | none => emptyStr
  | some s => s

def needs_quote (sep : Char) (s : String) : Bool :=
  s.data.any (fun c => c = sep || c = '"' || c = '\n' || c = '\r')

def escape_quotes : List Char → List Char
  | [] => []
  | c :: rest =>
    if c = '"' then '"' :: '"' :: escape_quotes rest
    else c :: escape_quotes rest

/-- Minimal quoting: a field is quoted exactly when it holds the
separator, a quote or a line break. -/
def csv_field (sep : Char) (s : String) : List Char :=
  if needs_quote sep s then '"' :: (escape_quotes s.data ++ ['"'])
  else s.data

def render_line (sep : Char) : List String → List Char
  | [] => []
  | [f] => csv_field sep f
  | f :: rest => csv_field sep f ++ sep :: render_line sep rest

def render_table (sep : Char) : List (List String) → List Char
  | [] => []
  | l :: rest => render_line sep l ++ '\n' :: render_table sep rest

/-- Model of the data-frame CSV writer: header row then one record per
row, a newline after every record, minimal quoting. -/
def to_csv (df : DataFrame) (sep : Char) : String :=
  String.mk (render_table sep (df.cols :: df.rows.map (fun r => r.map cell_text)))

def bomChar : Char := '\ufeff'

/-- The serializer: the byte-order mark prepended to the rendered text. -/
def df_to_csv_bom (df : DataFrame) (sep : Char) : String :=
  String.mk (bomChar :: (to_csv df sep).data)

def strip_bom (s : String) : String :=
  match s.data with
  | c :: rest => if c = bomChar then String.mk rest else s
  | [] => s

inductive CMode where
  | mU : List Char → CMode
  | mQ : List Char → CMode

def consF (s : String) (rs : List (List String)) : List (List String) :=
  match rs with
  | [] => [[s]]
  | r :: rest => (s :: r) :: rest

def revStr (acc : List Char) : String :=
  String.mk acc.reverse

/-- Modelled from the spec: the re-parsing step of the round-trip property
(the repository never re-reads its own output, so no reader exists under
src).  A single pass over the characters with an unquoted, quoted and
after-closing-quote state. -/
def csv_scan (sep : Char) : CMode → List Char → List (List String)
  | CMode.mU acc, [] => [[revStr acc]]
  | CMode.mU acc, c :: rest =>
    if c = '"' && acc.isEmpty then csv_scan sep (CMode.mQ []) rest
    else if c = sep then consF (revStr acc) (csv_scan sep (CMode.mU []) rest)
    else if c = '\n' then [revStr acc] :: csv_scan sep (CMode.mU []) rest
    else csv_scan sep (CMode.mU (c :: acc)) rest
  | CMode.mQ acc, [] => [[revStr acc]]
  | CMode.mQ acc, c :: rest =>
    if c = '"' then
      match rest with
      | [] => [[revStr acc]]
      | c2 :: rest2 =>
        if c2 = '"' then csv_scan sep (CMode.mQ (c2 :: acc)) rest2
        else if c2 = sep then consF (revStr acc) (csv_scan sep (CMode.mU []) rest2)
        else if c2 = '\n' then [revStr acc] :: csv_scan sep (CMode.mU []) rest2
        else csv_scan sep (CMode.mU (c2 :: acc)) rest2
    else csv_scan sep (CMode.mQ (c :: acc)) rest

def drop_trailing : List (List String) → List (List String)
  | [] => []
  | [r] => if r = [emptyStr] then [] else [r]
  | r :: rest => r :: drop_trailing rest

/-- The scanner state right after a closing quote, written out as a
function (used to state the scanner lemmas). -/
def handle_close (sep : Char) (acc : List Char) (cs : List Char) : List (List String) :=
  match cs with
  | [] => [[revStr acc]]
  | c :: rest =>
    if c = sep then consF (revStr acc) (csv_scan sep (CMode.mU []) rest)
    else if c = '\n' then [revStr acc] :: csv_scan sep (CMode.mU []) rest
    else csv_scan sep (CMode.mU (c :: acc)) rest

/-- What the scanner does after one whole field, at a separator, a line
break or the end of input (used to state the scanner lemmas). -/
def finish_field (sep : Char) (f : String) (cs : List Char) : List (List String) :=
  match cs with
  | [] => [[f]]
  | c :: rest =>
    if c = sep then consF f (csv_scan sep (CMode.mU []) rest)
    else [f] :: csv_scan sep (CMode.mU []) rest

/-- Modelled from the spec: parse the delimited text back into records,
discarding the empty record the trailing newline produces. -/
def parse_csv (sep : Char) (s : String) : List (List String) :=
  drop_trailing (csv_scan sep (CMode.mU []) s.data)

/- The application flow. -/

def cell_of_case : Option Nat → Cell
  | none => none
  | some n => some (toString n)

def cell_of_step : Option Json → Cell
  | none => none
  | some j => some (py_str j)

def flat_headers : List String :=
  [hdrCase, lblIssueKey, lblSummary, hdrStep, keyAction, keyData, keyExpected]

/-- The flat result as a table in the fixed output column order. -/
def flat_to_df (rows : List FlatRow) : DataFrame :=
  ⟨flat_headers,
    rows.map (fun fr =>
      [cell_of_case fr.caseNumber, fr.row.issueKey, fr.row.summary,
        cell_of_step fr.row.stepNum, some fr.row.action, some fr.row.data,
        some fr.row.expected])⟩

/-- The application flow from column detection to the optional collapse.
A validation failure stops everything before the flattener runs. -/
def run_app (df : DataFrame) (collapse_opt : Bool) : Except String DataFrame :=
  match missing_labels df.cols with
  | [] => do
    let flat ← build_flat df (find_col df.cols lblSteps) (col_key df.cols)
      (find_col df.cols lblSummary)
    let fdf := flat_to_df flat
    Except.ok
      (if collapse_opt then collapse_repeats fdf lblIssueKey [lblIssueKey, lblSummary]
       else fdf)
  | m :: rest => Except.error (errMsgHead ++ String.intercalate commaSpace (m :: rest))

/- Concrete inputs used by the closed theorems below. -/

def strA : String := "A"

def strB : String := "B"

def strX : String := "x"

def strY : String := "y"

def strZ : String := "z"

def colA : String := "ID"

def c1cell : String := "[1]"

def garbageCell : String := "not json at all"

def numCell : String := "1"

/-- The canonical double-quoted form of the single-quoted example cell. -/
def c3json : String := "[\x7b\"index\":2,\"fields\":\x7b\"Action\":\"A\"\x7d\x7d]"

/-- The single-quoted example cell, obtained by swapping every double
quote of the canonical form for a single quote. -/
def c3cell : String :=
  String.mk (c3json.data.map (fun c => if c = '"' then '\'' else c))

def is_arr : Json → Bool
  | Json.arr _ => true
  | _ => false

def witCols : List String := [colA, lblKey, lblSummary]

def df8 : DataFrame := ⟨[colA], []⟩

def df4 : DataFrame :=
  ⟨[lblIssueKey, lblSummary, lblSteps], [[some strA, some strX, some c1cell]]⟩

def df5 : DataFrame :=
  ⟨[lblIssueKey, lblSummary, lblSteps], [[some emptyStr, some strX, none]]⟩

def df7 : DataFrame :=
  ⟨[lblIssueKey, lblSummary],
    [[some strA, some strX], [some strB, some strY], [some strA, some strZ]]⟩

def df4w : DataFrame :=
  ⟨[lblIssueKey, lblSummary, lblSteps], [[some strA, some strX, none]]⟩

def out4w : List FlatRow :=
  [⟨some 1, ⟨some strA, some strX, none, emptyStr, emptyStr, emptyStr⟩⟩]

def df5w : DataFrame :=
  ⟨[lblIssueKey, lblSummary, lblSteps],
    [[some strA, some strX, none], [some strB, some strY, none],
     [some strA, some strZ, none]]⟩

def out5w : List FlatRow :=
  [⟨some 1, ⟨some strA, some strX, none, emptyStr, emptyStr, emptyStr⟩⟩,
   ⟨some 2, ⟨some strB, some strY, none, emptyStr, emptyStr, emptyStr⟩⟩,
   ⟨some 1, ⟨some strA, some strZ, none, emptyStr, emptyStr, emptyStr⟩⟩]

def df9w : DataFrame := ⟨[colA, lblSummary], [[some strX, none], [none, some strY]]⟩

/-- C1 (code evaluated at the failing input): the cell holding the JSON
array with the single non-object element 1 makes the cell parser raise the
attribute error from the unguarded index lookup, instead of producing the
tolerant default record the claim describes. -/
theorem c1_nonobject_element_raises :
    parse_manual_steps_cell (some c1cell) = Except.error attrErrMsg := rfl

/-- C2: a cell that is absent, whitespace-only, or whose text fails both
the strict decode and the relaxed single-quote retry parses to the empty
step sequence without an error. -/
theorem c2_empty_or_undecodable_cell_yields_no_steps (cell : Option String)
    (h : cell = none ∨ ∃ s, cell = some s ∧
      (py_strip s = emptyStr ∨ decode_steps (normalize_cell s) = none)) :
    parse_manual_steps_cell cell = Except.ok [] := by
  rcases h with h | ⟨s, rfl, h⟩
  · subst h; rfl
  · unfold parse_manual_steps_cell
    rcases h with h | h
    · simp [h]
    · by_cases hs : py_strip s = emptyStr
      · simp [hs]
      · simp [hs, h]

theorem c2_witness :
    (some garbageCell = none ∨ ∃ s, some garbageCell = some s ∧
      (py_strip s = emptyStr ∨ decode_steps (normalize_cell s) = none)) ∧
    parse_manual_steps_cell (some garbageCell) = Except.ok [] :=
  ⟨Or.inr ⟨garbageCell, rfl, Or.inr rfl⟩,
   c2_empty_or_undecodable_cell_yields_no_steps (some garbageCell)
     (Or.inr ⟨garbageCell, rfl, Or.inr rfl⟩)⟩

/-- C3: the single-quoted example cell fails the strict decode, succeeds
through the relaxed single-quote retry, and yields exactly one step record
with step number 2, action A and empty data and expected result. -/
theorem c3_relaxed_decode_example :
    json_loads (normalize_cell c3cell) = none ∧
    decode_steps (normalize_cell c3cell) =
      some (Json.arr [Json.obj
        [(keyIndex, Json.num 2), (keyFields, Json.obj [(keyAction, Json.str strA)])]]) ∧
    parse_manual_steps_cell (some c3cell) =
      Except.ok [⟨some (Json.num 2), strA, emptyStr, emptyStr⟩] :=
  ⟨rfl, rfl, rfl⟩

/-- C10: a cell whose text decodes to a JSON value that is not an array
parses to the empty step sequence rather than an error. -/
theorem c10_non_array_value_yields_no_steps (s : String) (j : Json)
    (hdec : decode_steps (normalize_cell s) = some j) (hna : is_arr j = false) :
    parse_manual_steps_cell (some s) = Except.ok [] := by
  unfold parse_manual_steps_cell
  by_cases hs : py_strip s = emptyStr
  · simp [hs]
  · simp only [hs, if_false, if_neg hs, hdec]
    cases j <;> simp_all [is_arr]

theorem c10_witness :
    decode_steps (normalize_cell numCell) = some (Json.num 1) ∧
    is_arr (Json.num 1) = false ∧
    parse_manual_steps_cell (some numCell) = Except.ok [] :=
  ⟨rfl, rfl, c10_non_array_value_yields_no_steps numCell (Json.num 1) rfl rfl⟩

/- The column resolver claims. -/

lemma name_matches_empty (needle : String) (h : needle ≠ emptyStr) :
    name_matches emptyStr needle = false := by
  have hd : needle.data ≠ [] := by
    intro hd; exact h (by cases needle; simp_all [emptyStr])
  unfold name_matches
  have he : emptyStr.data = ([] : List Char) := rfl
  rw [he]
  cases hn : needle.data with
  | nil => exact absurd hn hd
  | cons c cs => simp [has_sub]

/-- C6: the resolver returns the first column, in input order, whose
lower-cased name contains the lower-cased target label, and the empty
(unresolved) marker when none matches; the key column tries the issue-key
label first and only on failure falls back to the bare key label. -/
theorem c6_resolver_first_match (cols : List String) (needle : String)
    (hne : needle ≠ emptyStr) :
    ((find_col cols needle = emptyStr → ∀ c ∈ cols, name_matches c needle = false) ∧
     (find_col cols needle ≠ emptyStr →
        ∃ i, i < cols.length ∧ cols.getD i emptyStr = find_col cols needle ∧
          name_matches (cols.getD i emptyStr) needle = true ∧
          ∀ j, j < i → name_matches (cols.getD j emptyStr) needle = false)) ∧
    ((find_col cols lblIssueKey ≠ emptyStr → col_key cols = find_col cols lblIssueKey) ∧
     (find_col cols lblIssueKey = emptyStr → col_key cols = find_col cols lblKey)) := by
  constructor
  · induction cols with
    | nil =>
      constructor
      · intro _ c hc; exact absurd hc (List.not_mem_nil c)
      · intro h; exact absurd rfl h
    | cons c0 rest ih =>
      by_cases hm : name_matches c0 needle = true
      · have hfc : find_col (c0 :: rest) needle = c0 := by simp [find_col, hm]
        constructor
        · intro h0
          rw [hfc] at h0; subst h0
          rw [name_matches_empty needle hne] at hm
          exact absurd hm (by simp)
        · intro _
          exact ⟨0, by simp, by simp [hfc], by simpa using hm,
            fun j hj => absurd hj (Nat.not_lt_zero j)⟩
      · have hm' : name_matches c0 needle = false := by
          cases hb : name_matches c0 needle with
          | true => exact absurd hb hm
          | false => rfl
        have hfc : find_col (c0 :: rest) needle = find_col rest needle := by
          simp [find_col, hm']
        obtain ⟨ih1, ih2⟩ := ih
        constructor
        · intro h0 c hc
          rw [hfc] at h0
          rcases List.mem_cons.mp hc with rfl | hc'
          · exact hm'
          · exact ih1 h0 c hc'
        · intro h0
          rw [hfc] at h0
          obtain ⟨i, hi, he, hmi, hprev⟩ := ih2 h0
          refine ⟨i + 1, by simpa using hi, by simpa [hfc] using he, by simpa using hmi, ?_⟩
          intro j hj
          cases j with
          | zero => simpa using hm'
          | succ j' =>
            simpa using hprev j' (by omega)
  · constructor
    · intro h; unfold col_key; rw [if_pos h]
    · intro h; unfold col_key; rw [if_neg (by simp [h])]

theorem c6_witness :
    lblSteps ≠ emptyStr ∧
    (find_col witCols lblSteps = emptyStr → ∀ c ∈ witCols, name_matches c lblSteps = false) ∧
    (find_col witCols lblIssueKey = emptyStr → col_key witCols = find_col witCols lblKey) :=
  ⟨by decide,
   (c6_resolver_first_match witCols lblSteps (by decide)).1.1,
   (c6_resolver_first_match witCols lblSteps (by decide)).2.2⟩

/- The validation claim. -/

/-- C8: when any of the three labels is unresolved, the run stops with the
validation error whose message joins exactly the unresolved labels, and no
flat output is produced. -/
theorem c8_validation_blocks_flattening (df : DataFrame) (opt : Bool)
    (h : missing_labels df.cols ≠ []) :
    run_app df opt =
      Except.error (errMsgHead ++ String.intercalate commaSpace (missing_labels df.cols)) ∧
    (∀ l, l ∈ missing_labels df.cols ↔
      ((l = lblSteps ∧ find_col df.cols lblSteps = emptyStr) ∨
       (l = lblIssueKey ∧ col_key df.cols = emptyStr) ∨
       (l = lblSummary ∧ find_col df.cols lblSummary = emptyStr))) := by
  constructor
  · obtain ⟨m, rest, hm⟩ : ∃ m rest, missing_labels df.cols = m :: rest := by
      cases hml : missing_labels df.cols with
      | nil => exact absurd hml h
      | cons m rest => exact ⟨m, rest, rfl⟩
    simp [run_app, hm]
  · intro l
    by_cases h1 : find_col df.cols lblSteps = emptyStr <;>
      by_cases h2 : col_key df.cols = emptyStr <;>
        by_cases h3 : find_col df.cols lblSummary = emptyStr <;>
          simp [missing_labels, h1, h2, h3]

theorem c8_witness :
    missing_labels df8.cols ≠ [] ∧
    run_app df8 true =
      Except.error (errMsgHead ++ String.intercalate commaSpace (missing_labels df8.cols)) :=
  ⟨by decide, (c8_validation_blocks_flattening df8 true (by decide)).1⟩

/- Counterexample inputs for the flattener and collapse claims. -/

/-- C4 counterexample: a one-record table whose steps cell decodes to an
array with a non-object element makes the flattener raise instead of
emitting at least one row, so the unconditional lower bound fails. -/
theorem c4_counterexample :
    df4.rows.length = 1 ∧
    build_flat df4 lblSteps lblIssueKey lblSummary = Except.error attrErrMsg :=
  ⟨rfl, rfl⟩

/-- C5 counterexample: a row whose issue key is the empty string (present
but empty) is numbered like any other key — it receives case number one —
whereas the claim says empty keys get no case number. -/
theorem c5_counterexample :
    build_flat df5 lblSteps lblIssueKey lblSummary =
      Except.ok [⟨some 1, ⟨some emptyStr, some strX, none, emptyStr, emptyStr, emptyStr⟩⟩] ∧
    (some 1 : Option Nat) ≠ none :=
  ⟨rfl, by decide⟩

/-- C7 counterexample: with keys A, B, A the third row shares no
contiguous run with the first, yet the transform blanks it — the grouping
is by value over the whole table, not by contiguous runs, so the claimed
contiguous no-op behaviour fails. -/
theorem c7_counterexample :
    collapse_repeats df7 lblIssueKey [lblIssueKey, lblSummary] =
      ⟨[lblIssueKey, lblSummary],
        [[some strA, some strX], [some strB, some strY], [some emptyStr, some emptyStr]]⟩ ∧
    collapse_repeats df7 lblIssueKey [lblIssueKey, lblSummary] ≠ df7 :=
  ⟨rfl, by decide⟩

/- Helper lemmas about the flattener. -/

lemma mapE_ok {α β : Type} (f : α → Except String β) :
    ∀ (l : List α) (ys : List β), mapE f l = Except.ok ys →
      List.Forall₂ (fun x y => f x = Except.ok y) l ys := by
  intro l
  induction l with
  | nil =>
    intro ys h
    simp only [mapE, Except.ok.injEq] at h
    subst h
    exact List.Forall₂.nil
  | cons x rest ih =>
    intro ys h
    unfold mapE at h
    cases hx : f x with
    | error e => rw [hx] at h; simp [Bind.bind, Except.bind] at h
    | ok y =>
      rw [hx] at h
      cases hr : mapE f rest with
      | error e => rw [hr] at h; simp [Bind.bind, Except.bind] at h
      | ok ys' =>
        rw [hr] at h
        simp only [Bind.bind, Except.bind, Except.ok.injEq] at h
        subst h
        exact List.Forall₂.cons hx (ih ys' hr)

lemma forall2_exists_left {α β : Type} {R : α → β → Prop} :
    ∀ {l₁ : List α} {l₂ : List β}, List.Forall₂ R l₁ l₂ → ∀ b ∈ l₂, ∃ a ∈ l₁, R a b := by
  intro l₁ l₂ hf
  induction hf with
  | nil => simp
  | cons h₁ h₂ ih =>
    intro b hb
    rcases List.mem_cons.mp hb with rfl | hb'
    · exact ⟨_, List.mem_cons_self _ _, h₁⟩
    · obtain ⟨a, ha, hr⟩ := ih b hb'
      exact ⟨a, List.mem_cons_of_mem _ ha, hr⟩

lemma record_rows_ok (cols : List String) (a b c : String) (r : List Cell)
    (ps : List PreRow) (h : record_rows cols a b c r = Except.ok ps) :
    ∃ steps, parse_manual_steps_cell (row_get cols r a) = Except.ok steps ∧
      ps = (if steps.isEmpty then
              [⟨row_get cols r b, row_get cols r c, none, emptyStr, emptyStr, emptyStr⟩]
            else steps.map (fun s =>
              ⟨row_get cols r b, row_get cols r c, s.stepNumber,
                s.action, s.data, s.expectedResult⟩)) := by
  unfold record_rows at h
  cases hp : parse_manual_steps_cell (row_get cols r a) with
  | error e => rw [hp] at h; simp [Bind.bind, Except.bind] at h
  | ok steps =>
    rw [hp] at h
    simp only [Bind.bind, Except.bind] at h
    refine ⟨steps, rfl, ?_⟩
    split at h
    · rename_i he2
      simp only [Except.ok.injEq] at h
      rw [if_pos he2]
      exact h.symm
    · rename_i he2
      simp only [Except.ok.injEq] at h
      rw [if_neg he2]
      exact h.symm

lemma record_rows_shape (cols : List String) (a b c : String) (r : List Cell)
    (ps : List PreRow) (h : record_rows cols a b c r = Except.ok ps) :
    ps ≠ [] ∧
    (∀ steps, parse_manual_steps_cell (row_get cols r a) = Except.ok steps →
      (ps.length = 1 ↔ steps.length ≤ 1)) := by
  obtain ⟨steps, hp, hps⟩ := record_rows_ok cols a b c r ps h
  constructor
  · rw [hps]
    by_cases he : steps.isEmpty
    · simp [he]
    · have hne : steps ≠ [] := by
        intro h0; rw [h0] at he; exact he rfl
      simp [he, hne]
  · intro steps' hp'
    rw [hp] at hp'
    injection hp' with h'
    subst h'
    by_cases he : steps.isEmpty
    · have h0 : steps = [] := by
        cases steps with
        | nil => rfl
        | cons s ss => simp at he
      subst h0
      simp [hps]
    · have hne : steps ≠ [] := by
        intro h0; rw [h0] at he; exact he rfl
      have hpos := List.length_pos.mpr hne
      rw [hps, if_neg he, List.length_map]
      omega

lemma flatten_bounds (pres : List (List PreRow)) (hne : ∀ ps ∈ pres, ps ≠ []) :
    pres.length ≤ pres.flatten.length ∧
    (pres.flatten.length = pres.length ↔ ∀ ps ∈ pres, ps.length = 1) := by
  induction pres with
  | nil => simp
  | cons p rest ih =>
    have hp : p ≠ [] := hne p (List.mem_cons_self p rest)
    have hp1 : 1 ≤ p.length := List.length_pos.mpr hp
    obtain ⟨ih1, ih2⟩ := ih (fun ps hps => hne ps (List.mem_cons_of_mem p hps))
    constructor
    · simp only [List.flatten_cons, List.length_append, List.length_cons]
      omega
    · simp only [List.flatten_cons, List.length_append, List.length_cons, List.mem_cons]
      constructor
      · intro he
        have hsplit : p.length = 1 ∧ rest.flatten.length = rest.length := by omega
        intro ps hps
        rcases hps with rfl | hps'
        · exact hsplit.1
        · exact ih2.mp hsplit.2 ps hps'
      · intro hall
        have hp2 : p.length = 1 := hall p (Or.inl rfl)
        have hr2 : rest.flatten.length = rest.length :=
          ih2.mpr (fun ps hps => hall ps (Or.inr hps))
        omega

lemma forall2_len_bridge (cols : List String) (a b c : String) :
    ∀ (rows : List (List Cell)) (pres : List (List PreRow)),
      List.Forall₂ (fun r ps => record_rows cols a b c r = Except.ok ps) rows pres →
      ((∀ ps ∈ pres, ps.length = 1) ↔
       (∀ r ∈ rows, ∀ steps,
          parse_manual_steps_cell (row_get cols r a) = Except.ok steps →
            steps.length ≤ 1)) := by
  intro rows pres hf
  induction hf with
  | nil => simp
  | @cons r0 ps0 rows' pres' hrp hrest ih =>
    obtain ⟨hne0, hiff0⟩ := record_rows_shape cols a b c r0 ps0 hrp
    simp only [List.mem_cons]
    constructor
    · rintro hall r' (rfl | hr') steps hp
      · exact (hiff0 steps hp).mp (hall ps0 (Or.inl rfl))
      · exact ih.mp (fun ps hps => hall ps (Or.inr hps)) r' hr' steps hp
    · rintro hall ps' (rfl | hps')
      · obtain ⟨steps, hp, _⟩ := record_rows_ok cols a b c r0 ps' hrp
        exact (hiff0 steps hp).mpr (hall r0 (Or.inl rfl) steps hp)
      · exact ih.mpr (fun r hr steps hp => hall r (Or.inr hr) steps hp) ps' hps'

/-- C4 (amended): whenever the flattener returns successfully it emits at
least as many rows as the input has records, with equality exactly when
every record parses to at most one step; a record whose cell parses to
zero steps contributes exactly one placeholder row with no step number and
empty step fields; and the output rows are the concatenation of the
per-record contributions in input order. -/
theorem c4_flattener_bounds (df : DataFrame) (a b c : String) (out : List FlatRow)
    (h : build_flat df a b c = Except.ok out) :
    df.rows.length ≤ out.length ∧
    (out.length = df.rows.length ↔
      ∀ r ∈ df.rows, ∀ steps,
        parse_manual_steps_cell (row_get df.cols r a) = Except.ok steps →
          steps.length ≤ 1) ∧
    (∀ r : List Cell, parse_manual_steps_cell (row_get df.cols r a) = Except.ok [] →
      record_rows df.cols a b c r =
        Except.ok [⟨row_get df.cols r b, row_get df.cols r c, none,
          emptyStr, emptyStr, emptyStr⟩]) ∧
    ∃ pres : List (List PreRow),
      List.Forall₂ (fun r ps => record_rows df.cols a b c r = Except.ok ps) df.rows pres ∧
      out.map FlatRow.row = pres.flatten := by
  unfold build_flat at h
  cases hpre : mapE (record_rows df.cols a b c) df.rows with
  | error e => rw [hpre] at h; simp [Bind.bind, Except.bind] at h
  | ok pres =>
    rw [hpre] at h
    simp only [Bind.bind, Except.bind] at h
    cases hfl : pres.flatten with
    | nil => rw [hfl] at h; simp at h
    | cons r0 rs =>
      rw [hfl] at h
      simp only [Except.ok.injEq] at h
      have hf2 := mapE_ok (record_rows df.cols a b c) df.rows pres hpre
      have hlen : df.rows.length = pres.length := List.Forall₂.length_eq hf2
      have hne : ∀ ps ∈ pres, ps ≠ [] := by
        intro ps hps
        obtain ⟨r, _, hr⟩ := forall2_exists_left hf2 ps hps
        exact (record_rows_shape df.cols a b c r ps hr).1
      have hrows : out.map FlatRow.row = pres.flatten := by
        rw [← h, hfl]
        unfold number_rows
        rw [List.map_map]
        simp [Function.comp_def]
      have hout_len : out.length = pres.flatten.length := by
        have := congrArg List.length hrows
        simpa using this
      obtain ⟨hb1, hb2⟩ := flatten_bounds pres hne
      refine ⟨?_, ?_, ?_, pres, hf2, hrows⟩
      · omega
      · rw [hout_len, hlen, hb2]
        exact forall2_len_bridge df.cols a b c df.rows pres hf2
      · intro r hp
        unfold record_rows
        rw [hp]
        simp [Bind.bind, Except.bind]

theorem c4_witness :
    build_flat df4w lblSteps lblIssueKey lblSummary = Except.ok out4w ∧
    df4w.rows.length ≤ out4w.length :=
  ⟨rfl, (c4_flattener_bounds df4w lblSteps lblIssueKey lblSummary out4w rfl).1⟩

/- Helper lemmas about the case numbering. -/

lemma mem_first_seen {α : Type} [BEq α] [LawfulBEq α] :
    ∀ (l : List α) (seen : List α) (x : α),
      x ∈ first_seen seen l ↔ (x ∈ l ∧ x ∉ seen) := by
  intro l
  induction l with
  | nil => intro seen x; simp [first_seen]
  | cons k rest ih =>
    intro seen x
    by_cases hk : seen.contains k
    · have hkm : k ∈ seen := by simpa using hk
      rw [first_seen, if_pos hk, ih]
      constructor
      · rintro ⟨hx, hs⟩
        exact ⟨List.mem_cons_of_mem k hx, hs⟩
      · rintro ⟨hx, hs⟩
        rcases List.mem_cons.mp hx with rfl | hx'
        · exact absurd hkm hs
        · exact ⟨hx', hs⟩
    · rw [first_seen, if_neg hk]
      constructor
      · intro hx
        rcases List.mem_cons.mp hx with rfl | hx'
        · exact ⟨List.mem_cons_self x rest, by simpa using hk⟩
        · obtain ⟨h1, h2⟩ := (ih (k :: seen) x).mp hx'
          have hxk : x ≠ k := fun he => h2 (he ▸ List.mem_cons_self k seen)
          exact ⟨List.mem_cons_of_mem k h1, fun hxs => h2 (List.mem_cons_of_mem k hxs)⟩
      · rintro ⟨hx, hs⟩
        rcases List.mem_cons.mp hx with rfl | hx'
        · exact List.mem_cons_self x _
        · by_cases hxk : x = k
          · subst hxk; exact List.mem_cons_self x _
          · exact List.mem_cons_of_mem k ((ih (k :: seen) x).mpr
              ⟨hx', by simp [hxk, hs, List.mem_cons]⟩)

lemma assoc_enumerate (us : List String) (k : String) :
    ∀ n, k ∈ us → assoc_nat k (enumerate_from n us) = some (idx_of k us + n) := by
  induction us with
  | nil => intro n h; exact absurd h (List.not_mem_nil k)
  | cons u rest ih =>
    intro n hk
    by_cases he : u = k
    · subst he; simp [enumerate_from, assoc_nat, idx_of]
    · have hk' : k ∈ rest := by
        rcases List.mem_cons.mp hk with rfl | h
        · exact absurd rfl he
        · exact h
      rw [enumerate_from, assoc_nat, if_neg he, ih (n + 1) hk', idx_of, if_neg he]
      congr 1
      omega

lemma number_rows_rows (rows : List PreRow) :
    (number_rows rows).map FlatRow.row = rows := by
  unfold number_rows
  rw [List.map_map]
  simp [Function.comp_def]

lemma number_rows_keys (rows : List PreRow) :
    (number_rows rows).map (fun x => x.row.issueKey) = rows.map PreRow.issueKey := by
  unfold number_rows
  rw [List.map_map]
  simp [Function.comp_def]

lemma number_rows_case (rows : List PreRow) (fr : FlatRow) (hfr : fr ∈ number_rows rows) :
    fr.row ∈ rows ∧
    fr.caseNumber = (fr.row.issueKey).map (fun k =>
      idx_of k ((first_seen [] (rows.map PreRow.issueKey)).filterMap id) + 1) := by
  unfold number_rows at hfr
  simp only [List.mem_map] at hfr
  obtain ⟨p, hp, rfl⟩ := hfr
  refine ⟨hp, ?_⟩
  cases hkey : p.issueKey with
  | none => simp [hkey]
  | some k =>
    have hkm : some k ∈ rows.map PreRow.issueKey := by
      exact List.mem_map.mpr ⟨p, hp, hkey⟩
    have hfs : some k ∈ first_seen [] (rows.map PreRow.issueKey) :=
      (mem_first_seen _ [] (some k)).mpr ⟨hkm, by simp⟩
    have hus : k ∈ (first_seen [] (rows.map PreRow.issueKey)).filterMap id := by
      simpa using hfs
    simp only [hkey, Option.bind_some, Option.map_some]
    exact assoc_enumerate _ k 1 hus

/-- C5 (amended): in a successful flat output the case number of every row
is determined by its issue key — a present key (the empty string included)
gets one plus the rank of the key's first appearance among the distinct
present keys of the emitted row sequence, and an absent key gets no case
number; in particular rows sharing an issue key share a case number. -/
theorem c5_case_number_assignment (df : DataFrame) (a b c : String) (out : List FlatRow)
    (h : build_flat df a b c = Except.ok out) :
    (∀ fr ∈ out,
      fr.caseNumber = (fr.row.issueKey).map (fun k =>
        idx_of k ((first_seen [] (out.map (fun x => x.row.issueKey))).filterMap id) + 1)) ∧
    (∀ fr ∈ out, fr.row.issueKey = none → fr.caseNumber = none) ∧
    (∀ fr1 ∈ out, ∀ fr2 ∈ out, fr1.row.issueKey = fr2.row.issueKey →
      fr1.caseNumber = fr2.caseNumber) := by
  unfold build_flat at h
  cases hpre : mapE (record_rows df.cols a b c) df.rows with
  | error e => rw [hpre] at h; simp [Bind.bind, Except.bind] at h
  | ok pres =>
    rw [hpre] at h
    simp only [Bind.bind, Except.bind] at h
    cases hfl : pres.flatten with
    | nil => rw [hfl] at h; simp at h
    | cons r0 rs =>
      rw [hfl] at h
      simp only [Except.ok.injEq] at h
      subst h
      have hmain : ∀ fr ∈ number_rows (r0 :: rs),
          fr.caseNumber = (fr.row.issueKey).map (fun k =>
            idx_of k ((first_seen []
              ((number_rows (r0 :: rs)).map (fun x => x.row.issueKey))).filterMap id) + 1) := by
        intro fr hfr
        rw [number_rows_keys]
        exact (number_rows_case (r0 :: rs) fr hfr).2
      refine ⟨hmain, ?_, ?_⟩
      · intro fr hfr hk
        rw [hmain fr hfr, hk]
        rfl
      · intro fr1 h1 fr2 h2 hk
        rw [hmain fr1 h1, hmain fr2 h2, hk]

theorem c5_witness :
    build_flat df5w lblSteps lblIssueKey lblSummary = Except.ok out5w ∧
    (∀ fr1 ∈ out5w, ∀ fr2 ∈ out5w, fr1.row.issueKey = fr2.row.issueKey →
      fr1.caseNumber = fr2.caseNumber) :=
  ⟨rfl, (c5_case_number_assignment df5w lblSteps lblIssueKey lblSummary out5w rfl).2.2⟩

/- Helper lemmas about the collapse transform. -/

lemma mapi_length {α β : Type} (f : Nat → α → β) :
    ∀ (n : Nat) (l : List α), (mapi f n l).length = l.length := by
  intro n l
  induction l generalizing n with
  | nil => rfl
  | cons x rest ih => simp [mapi, ih]

lemma mapi_getD {α β : Type} (f : Nat → α → β) (d : β) (d0 : α) :
    ∀ (l : List α) (n i : Nat), i < l.length →
      (mapi f n l).getD i d = f (n + i) (l.getD i d0) := by
  intro l
  induction l with
  | nil => intro n i h; simp at h
  | cons x rest ih =>
    intro n i h
    cases i with
    | zero => simp [mapi]
    | succ i' =>
      simp only [mapi, List.getD_cons_succ]
      rw [ih (n + 1) i' (by simpa using h)]
      congr 1
      omega

lemma has_earlier_iff (df : DataFrame) (g : String) (i : Nat) :
    has_earlier df g i = true ↔
      ∃ i', i' < i ∧ row_key df g i' = row_key df g i := by
  unfold has_earlier
  simp [List.any_eq_true, List.mem_range]

/-- C7 (amended): the collapse transform keeps the column list and the row
count, and rewrites exactly the rows that have an earlier row with the
same present key — value-equality grouping over the whole table in its
natural order, not contiguous runs — blanking the listed columns of such
rows and leaving everything else unchanged; it is the identity on an empty
table or when the group column is absent. -/
theorem c7_collapse_semantics (df : DataFrame) (g : String) (cbs : List String) :
    ((df.rows = [] ∨ g ∉ df.cols) → collapse_repeats df g cbs = df) ∧
    (df.rows ≠ [] → g ∈ df.cols →
      (collapse_repeats df g cbs).cols = df.cols ∧
      (collapse_repeats df g cbs).rows.length = df.rows.length ∧
      (∀ i, i < df.rows.length →
        (collapse_repeats df g cbs).rows.getD i [] =
          (if (row_key df g i).isSome = true ∧
              (∃ i', i' < i ∧ row_key df g i' = row_key df g i)
           then blank_row df.cols cbs (df.rows.getD i [])
           else df.rows.getD i []))) ∧
    (∀ r : List Cell,
      (blank_row df.cols cbs r).length = r.length ∧
      (∀ j, j < r.length →
        (blank_row df.cols cbs r).getD j none =
          (if df.cols.getD j emptyStr ∈ cbs then some emptyStr else r.getD j none))) := by
  refine ⟨?_, ?_, ?_⟩
  · intro h
    have hcond : (df.rows.isEmpty || !(df.cols.contains g)) = true := by
      rcases h with h | h
      · rw [h]; rfl
      · have hc : df.cols.contains g = false := by
          cases hb : df.cols.contains g with
          | false => rfl
          | true => exact absurd (by simpa using hb) h
        rw [hc]
        simp
    unfold collapse_repeats
    rw [hcond]
    simp
  · intro hne hg
    have hc : df.cols.contains g = true := by simpa using hg
    have hie : df.rows.isEmpty = false := by
      cases hr : df.rows with
      | nil => exact absurd hr hne
      | cons a l => rfl
    have hcond : (df.rows.isEmpty || !(df.cols.contains g)) = false := by
      rw [hie, hc]; rfl
    have hrw : collapse_repeats df g cbs =
        ⟨df.cols,
          mapi (fun i r =>
            if (row_key df g i).isSome && has_earlier df g i then
              blank_row df.cols cbs r
            else r) 0 df.rows⟩ := by
      unfold collapse_repeats
      rw [hcond]
      rfl
    refine ⟨by rw [hrw], by rw [hrw]; exact mapi_length _ 0 df.rows, ?_⟩
    intro i hi
    rw [hrw]
    have := mapi_getD (fun i r =>
        if (row_key df g i).isSome && has_earlier df g i then
          blank_row df.cols cbs r
        else r) [] [] df.rows 0 i hi
    simp only [Nat.zero_add] at this
    rw [this]
    by_cases hcase : (row_key df g i).isSome = true ∧
        (∃ i', i' < i ∧ row_key df g i' = row_key df g i)
    · rw [if_pos hcase, if_pos]
      rw [Bool.and_eq_true, has_earlier_iff]
      exact hcase
    · rw [if_neg hcase, if_neg]
      rw [Bool.and_eq_true, has_earlier_iff]
      exact hcase
  · intro r
    constructor
    · exact mapi_length _ 0 r
    · intro j hj
      unfold blank_row
      have := mapi_getD (fun j v =>
          if cbs.contains (df.cols.getD j emptyStr) then some emptyStr else v)
        none none r 0 j hj
      simp only [Nat.zero_add] at this
      rw [this]
      by_cases hmem : df.cols.getD j emptyStr ∈ cbs
      · rw [if_pos hmem, if_pos (by simpa using hmem)]
      · rw [if_neg hmem, if_neg (by simpa using hmem)]

theorem c7_witness :
    df7.rows ≠ [] ∧ lblIssueKey ∈ df7.cols ∧
    (collapse_repeats df7 lblIssueKey [lblIssueKey, lblSummary]).rows.length =
      df7.rows.length :=
  ⟨by decide, by decide,
   ((c7_collapse_semantics df7 lblIssueKey [lblIssueKey, lblSummary]).2.1
     (by decide) (by decide)).2.1⟩

/- Helper lemmas for the serializer round trip. -/

lemma scanU_accum (sep : Char) :
    ∀ f : List Char, (∀ ch ∈ f, ch ≠ sep ∧ ch ≠ '"' ∧ ch ≠ '\n') →
      ∀ acc cs, csv_scan sep (CMode.mU acc) (f ++ cs) =
        csv_scan sep (CMode.mU (f.reverse ++ acc)) cs := by
  intro f
  induction f with
  | nil => intro _ acc cs; simp
  | cons c f' ih =>
    intro hf acc cs
    obtain ⟨h1, h2, h3⟩ := hf c (List.mem_cons_self c f')
    have hf' : ∀ ch ∈ f', ch ≠ sep ∧ ch ≠ '"' ∧ ch ≠ '\n' :=
      fun ch hch => hf ch (List.mem_cons_of_mem c hch)
    show csv_scan sep (CMode.mU acc) (c :: (f' ++ cs)) = _
    rw [csv_scan]
    simp only [h1, h2, h3, decide_eq_false, Bool.false_and, Bool.false_eq_true, if_false]
    rw [ih hf' (c :: acc) cs]
    simp [List.append_assoc]

lemma revStr_data (f : String) : revStr f.data.reverse = f := by
  unfold revStr
  rw [List.reverse_reverse]

lemma csv_scan_mQ_cons (sep c : Char) (acc rest : List Char) (hc : c ≠ '"') :
    csv_scan sep (CMode.mQ acc) (c :: rest) = csv_scan sep (CMode.mQ (c :: acc)) rest := by
  cases rest with
  | nil =>
    have h1 : csv_scan sep (CMode.mQ acc) [c] =
        (if c = '"' then [[revStr acc]]
         else csv_scan sep (CMode.mQ (c :: acc)) []) := rfl
    rw [h1, if_neg hc]
  | cons c2 rest2 =>
    have h1 : csv_scan sep (CMode.mQ acc) (c :: c2 :: rest2) =
        (if c = '"' then
           (if c2 = '"' then csv_scan sep (CMode.mQ (c2 :: acc)) rest2
            else if c2 = sep then consF (revStr acc) (csv_scan sep (CMode.mU []) rest2)
            else if c2 = '\n' then [revStr acc] :: csv_scan sep (CMode.mU []) rest2
            else csv_scan sep (CMode.mU (c2 :: acc)) rest2)
         else csv_scan sep (CMode.mQ (c :: acc)) (c2 :: rest2)) := rfl
    rw [h1, if_neg hc]

lemma scanQ_run (sep : Char) :
    ∀ (f : List Char) (acc : List Char) (cs : List Char),
      (cs = [] ∨ ∃ c' cs', cs = c' :: cs' ∧ c' ≠ '"') →
      csv_scan sep (CMode.mQ acc) (escape_quotes f ++ '"' :: cs) =
        handle_close sep (f.reverse ++ acc) cs := by
  intro f
  induction f with
  | nil =>
    intro acc cs hcs
    have he : escape_quotes [] ++ '"' :: cs = '"' :: cs := rfl
    rw [he]
    rcases hcs with rfl | ⟨c', cs', rfl, hc'⟩
    · rfl
    · have hred : csv_scan sep (CMode.mQ acc) ('"' :: c' :: cs') =
          (if c' = '"' then csv_scan sep (CMode.mQ (c' :: acc)) cs'
           else if c' = sep then consF (revStr acc) (csv_scan sep (CMode.mU []) cs')
           else if c' = '\n' then [revStr acc] :: csv_scan sep (CMode.mU []) cs'
           else csv_scan sep (CMode.mU (c' :: acc)) cs') := rfl
      have hhc : handle_close sep ([].reverse ++ acc) (c' :: cs') =
          (if c' = sep then consF (revStr acc) (csv_scan sep (CMode.mU []) cs')
           else if c' = '\n' then [revStr acc] :: csv_scan sep (CMode.mU []) cs'
           else csv_scan sep (CMode.mU (c' :: acc)) cs') := rfl
      rw [hred, hhc, if_neg hc']
  | cons c f' ih =>
    intro acc cs hcs
    by_cases hc : c = '"'
    · subst hc
      have he : escape_quotes ('"' :: f') ++ '"' :: cs =
          '"' :: '"' :: (escape_quotes f' ++ '"' :: cs) := by
        rw [escape_quotes, if_pos rfl]
        rfl
      have hred : csv_scan sep (CMode.mQ acc) ('"' :: '"' :: (escape_quotes f' ++ '"' :: cs)) =
          csv_scan sep (CMode.mQ ('"' :: acc)) (escape_quotes f' ++ '"' :: cs) := rfl
      rw [he, hred, ih ('"' :: acc) cs hcs]
      simp [List.append_assoc]
    · have he : escape_quotes (c :: f') ++ '"' :: cs =
          c :: (escape_quotes f' ++ '"' :: cs) := by
        rw [escape_quotes, if_neg hc]
        rfl
      rw [he, csv_scan_mQ_cons sep c acc _ hc]
      rw [ih (c :: acc) cs hcs]
      simp [List.append_assoc]

lemma field_scan (sep : Char) (hsep1 : sep ≠ '"') (hsep2 : sep ≠ '\n')
    (f : String) (cs : List Char)
    (hcs : cs = [] ∨ (∃ cs', cs = sep :: cs') ∨ (∃ cs', cs = '\n' :: cs')) :
    csv_scan sep (CMode.mU []) (csv_field sep f ++ cs) = finish_field sep f cs := by
  unfold csv_field
  by_cases hq : needs_quote sep f = true
  · rw [if_pos hq]
    have he : ('"' :: (escape_quotes f.data ++ ['"'])) ++ cs =
        '"' :: (escape_quotes f.data ++ '"' :: cs) := by
      simp
    have hstep : csv_scan sep (CMode.mU []) ('"' :: (escape_quotes f.data ++ '"' :: cs)) =
        csv_scan sep (CMode.mQ []) (escape_quotes f.data ++ '"' :: cs) := rfl
    rw [he, hstep]
    have hcs' : cs = [] ∨ ∃ c' cs', cs = c' :: cs' ∧ c' ≠ '"' := by
      rcases hcs with rfl | ⟨cs', rfl⟩ | ⟨cs', rfl⟩
      · exact Or.inl rfl
      · exact Or.inr ⟨sep, cs', rfl, hsep1⟩
      · exact Or.inr ⟨'\n', cs', rfl, by decide⟩
    rw [scanQ_run sep f.data [] cs hcs']
    rcases hcs with rfl | ⟨cs', rfl⟩ | ⟨cs', rfl⟩
    · have h1 : handle_close sep (f.data.reverse ++ []) [] =
          [[revStr (f.data.reverse ++ [])]] := rfl
      have h2 : finish_field sep f [] = [[f]] := rfl
      rw [h1, h2, List.append_nil, revStr_data]
    · have h1 : handle_close sep (f.data.reverse ++ []) (sep :: cs') =
          (if sep = sep then
            consF (revStr (f.data.reverse ++ [])) (csv_scan sep (CMode.mU []) cs')
           else if sep = '\n' then
            [revStr (f.data.reverse ++ [])] :: csv_scan sep (CMode.mU []) cs'
           else csv_scan sep (CMode.mU (sep :: (f.data.reverse ++ []))) cs') := rfl
      have h2 : finish_field sep f (sep :: cs') =
          (if sep = sep then consF f (csv_scan sep (CMode.mU []) cs')
           else [f] :: csv_scan sep (CMode.mU []) cs') := rfl
      rw [h1, h2, if_pos rfl, if_pos rfl, List.append_nil, revStr_data]
    · have h1 : handle_close sep (f.data.reverse ++ []) ('\n' :: cs') =
          (if '\n' = sep then
            consF (revStr (f.data.reverse ++ [])) (csv_scan sep (CMode.mU []) cs')
           else if '\n' = '\n' then
            [revStr (f.data.reverse ++ [])] :: csv_scan sep (CMode.mU []) cs'
           else csv_scan sep (CMode.mU ('\n' :: (f.data.reverse ++ []))) cs') := rfl
      have h2 : finish_field sep f ('\n' :: cs') =
          (if '\n' = sep then consF f (csv_scan sep (CMode.mU []) cs')
           else [f] :: csv_scan sep (CMode.mU []) cs') := rfl
      rw [h1, h2, if_neg (Ne.symm hsep2), if_pos rfl, if_neg (Ne.symm hsep2),
        List.append_nil, revStr_data]
  · rw [if_neg hq]
    have hnq : needs_quote sep f = false := by
      cases hb : needs_quote sep f with
      | false => rfl
      | true => exact absurd hb hq
    have hch : ∀ ch ∈ f.data, ch ≠ sep ∧ ch ≠ '"' ∧ ch ≠ '\n' := by
      intro ch hmem
      have h0 := List.any_eq_false.mp hnq ch hmem
      simp only [Bool.or_eq_true, decide_eq_true_eq, not_or] at h0
      exact ⟨h0.1.1.1, h0.1.1.2, h0.1.2⟩
    rw [scanU_accum sep f.data hch [] cs, List.append_nil]
    rcases hcs with rfl | ⟨cs', rfl⟩ | ⟨cs', rfl⟩
    · have h1 : csv_scan sep (CMode.mU f.data.reverse) ([] : List Char) =
          [[revStr f.data.reverse]] := rfl
      have h2 : finish_field sep f [] = [[f]] := rfl
      rw [h1, h2, revStr_data]
    · have h1 : csv_scan sep (CMode.mU f.data.reverse) (sep :: cs') =
          (if decide (sep = '"') && (f.data.reverse).isEmpty then
            csv_scan sep (CMode.mQ []) cs'
           else if sep = sep then
            consF (revStr f.data.reverse) (csv_scan sep (CMode.mU []) cs')
           else if sep = '\n' then
            [revStr f.data.reverse] :: csv_scan sep (CMode.mU []) cs'
           else csv_scan sep (CMode.mU (sep :: f.data.reverse)) cs') := rfl
      have h2 : finish_field sep f (sep :: cs') =
          (if sep = sep then consF f (csv_scan sep (CMode.mU []) cs')
           else [f] :: csv_scan sep (CMode.mU []) cs') := rfl
      have hb : ¬((decide (sep = '"') && (f.data.reverse).isEmpty) = true) := by
        simp [hsep1]
      rw [h1, h2, if_neg hb, if_pos rfl, if_pos rfl, revStr_data]
    · have h1 : csv_scan sep (CMode.mU f.data.reverse) ('\n' :: cs') =
          (if decide ('\n' = '"') && (f.data.reverse).isEmpty then
            csv_scan sep (CMode.mQ []) cs'
           else if '\n' = sep then
            consF (revStr f.data.reverse) (csv_scan sep (CMode.mU []) cs')
           else if '\n' = '\n' then
            [revStr f.data.reverse] :: csv_scan sep (CMode.mU []) cs'
           else csv_scan sep (CMode.mU ('\n' :: f.data.reverse)) cs') := rfl
      have h2 : finish_field sep f ('\n' :: cs') =
          (if '\n' = sep then consF f (csv_scan sep (CMode.mU []) cs')
           else [f] :: csv_scan sep (CMode.mU []) cs') := rfl
      have hb : ¬((decide ('\n' = '"') && (f.data.reverse).isEmpty) = true) := by
        simp
      rw [h1, h2, if_neg hb, if_neg (Ne.symm hsep2), if_pos rfl,
        if_neg (Ne.symm hsep2), revStr_data]

lemma line_scan (sep : Char) (hsep1 : sep ≠ '"') (hsep2 : sep ≠ '\n') :
    ∀ fs : List String, fs ≠ [] → ∀ cs : List Char,
      csv_scan sep (CMode.mU []) (render_line sep fs ++ '\n' :: cs) =
        fs :: csv_scan sep (CMode.mU []) cs := by
  intro fs
  induction fs with
  | nil => intro h; exact absurd rfl h
  | cons f rest ih =>
    intro _ cs
    cases rest with
    | nil =>
      rw [show render_line sep [f] = csv_field sep f from rfl]
      rw [field_scan sep hsep1 hsep2 f _ (Or.inr (Or.inr ⟨cs, rfl⟩))]
      have hff : finish_field sep f ('\n' :: cs) =
          (if '\n' = sep then consF f (csv_scan sep (CMode.mU []) cs)
           else [f] :: csv_scan sep (CMode.mU []) cs) := rfl
      rw [hff, if_neg (Ne.symm hsep2)]
    | cons f2 rest2 =>
      rw [show render_line sep (f :: f2 :: rest2) =
        csv_field sep f ++ sep :: render_line sep (f2 :: rest2) from rfl]
      have hassoc : (csv_field sep f ++ sep :: render_line sep (f2 :: rest2)) ++ '\n' :: cs =
          csv_field sep f ++ (sep :: (render_line sep (f2 :: rest2) ++ '\n' :: cs)) := by
        simp
      rw [hassoc, field_scan sep hsep1 hsep2 f _ (Or.inr (Or.inl ⟨_, rfl⟩))]
      have hff : finish_field sep f (sep :: (render_line sep (f2 :: rest2) ++ '\n' :: cs)) =
          (if sep = sep then
            consF f (csv_scan sep (CMode.mU [])
              (render_line sep (f2 :: rest2) ++ '\n' :: cs))
           else [f] :: csv_scan sep (CMode.mU [])
              (render_line sep (f2 :: rest2) ++ '\n' :: cs)) := rfl
      rw [hff, if_pos rfl, ih (by simp) cs]
      rfl

lemma table_scan (sep : Char) (hsep1 : sep ≠ '"') (hsep2 : sep ≠ '\n') :
    ∀ lines : List (List String), (∀ l ∈ lines, l ≠ []) →
      csv_scan sep (CMode.mU []) (render_table sep lines) = lines ++ [[emptyStr]] := by
  intro lines
  induction lines with
  | nil => intro _; rfl
  | cons l rest ih =>
    intro h
    rw [show render_table sep (l :: rest) =
      render_line sep l ++ '\n' :: render_table sep rest from rfl]
    rw [line_scan sep hsep1 hsep2 l (h l (List.mem_cons_self l rest)) _]
    rw [ih (fun l' hl' => h l' (List.mem_cons_of_mem l hl'))]
    rfl

lemma drop_trailing_append :
    ∀ xs : List (List String), drop_trailing (xs ++ [[emptyStr]]) = xs := by
  intro xs
  induction xs with
  | nil => simp [drop_trailing]
  | cons x rest ih =>
    cases hr : rest ++ [[emptyStr]] with
    | nil => exact absurd hr (by simp)
    | cons y ys =>
      have hx : (x :: rest) ++ [[emptyStr]] = x :: y :: ys := by
        rw [List.cons_append, hr]
      rw [hx]
      rw [show drop_trailing (x :: y :: ys) = x :: drop_trailing (y :: ys) from rfl]
      rw [← hr, ih]

/-- C9: serializing a table (any columns, any textual cells, any separator
other than the quote and line-break characters) and re-parsing the result
after stripping the byte-order mark gives back exactly the textual content,
row for row, header included. -/
theorem c9_serializer_roundtrip (df : DataFrame) (sep : Char)
    (hsep1 : sep ≠ '"') (hsep2 : sep ≠ '\n')
    (hcols : df.cols ≠ []) (hrows : ∀ r ∈ df.rows, r ≠ []) :
    parse_csv sep (strip_bom (df_to_csv_bom df sep)) =
      df.cols :: df.rows.map (fun r => r.map cell_text) := by
  have hstrip : strip_bom (df_to_csv_bom df sep) = to_csv df sep := rfl
  rw [hstrip]
  unfold parse_csv to_csv
  rw [show (String.mk (render_table sep
      (df.cols :: df.rows.map (fun r => r.map cell_text)))).data =
    render_table sep (df.cols :: df.rows.map (fun r => r.map cell_text)) from rfl]
  have hlines : ∀ l ∈ df.cols :: df.rows.map (fun r => r.map cell_text), l ≠ [] := by
    intro l hl
    rcases List.mem_cons.mp hl with rfl | hl'
    · exact hcols
    · obtain ⟨r, hr, rfl⟩ := List.mem_map.mp hl'
      intro h0
      exact hrows r hr (by simpa using h0)
  rw [table_scan sep hsep1 hsep2 _ hlines, drop_trailing_append]

theorem c9_witness :
    (df9w.cols ≠ [] ∧ ∀ r ∈ df9w.rows, r ≠ []) ∧
    parse_csv ';' (strip_bom (df_to_csv_bom df9w ';')) =
      df9w.cols :: df9w.rows.map (fun r => r.map cell_text) :=
  ⟨⟨by decide, by decide⟩,
   c9_serializer_roundtrip df9w ';' (by decide) (by decide) (by decide) (by decide)⟩

end XSP
